import Mathlib

/-!
Verification of the pinned-message e2e test helpers
(`Helpers` class: `receiveMessages`, `sendMessageAsClient`, `findRoomByName`,
`goTo`, `pinMessage(s)`, `assertPinnedCountInRoomInfo`,
`assertPinnedMessagesList`) and of the member-list view-model factory hook
(`useMemberListViewModelFactory`).

The helpers are sequential async methods whose only observable behaviour is
the ordered sequence of effects they perform against the page, the app
client and the bot client.  We embed each helper as a generator of a trace
of `Action`s; room lookup failure (the `find` returning `undefined`, on
which the subsequent `roomId` evaluation would throw) is modelled by
`Option`.  Assertions are embedded as assert-actions whose success is
evaluated against an abstract `PageState`.
-/

namespace PinnedHelpers

/-- Message content as passed to `Client.sendMessage`: `{ body, msgtype }`. -/
structure MessageContent where
  body : String
  msgtype : String
deriving DecidableEq, Repr

/-- The two Matrix clients a `Helpers` instance holds: the application
client (`this.app.client`) and the bot client (`this.bot`). -/
inductive ClientId where
  | app
  | bot
deriving DecidableEq, Repr

/-- A room as returned by `cli.getRooms()`: its display name and room id. -/
structure MatrixRoom where
  name : String
  roomId : String
deriving DecidableEq, Repr

/-- Environment of a helper run: the rooms visible through the app client's
`getRooms()` accessor, in order. -/
structure Env where
  getRooms : List MatrixRoom

/-- Observable effects performed by the helpers against the page and the
clients. -/
inductive Action where
  | sendMessage (cli : ClientId) (roomId : String) (content : MessageContent)
  | waitForTimeout (ms : Nat)
  | click (target : String)
  | viewRoom (name : String)
  | assertText (locator : String) (expected : String)
  | matchScreenshot (file : String)
  | assertCount (locator : String) (n : Nat)
  | assertVisible (locator : String) (text : String)
deriving DecidableEq, Repr

/-- The `room: string | { name: string }` argument shape taken by
`receiveMessages`, `sendMessageAsClient` and `goTo`. -/
inductive RoomArg where
  | str (s : String)
  | obj (name : String)
deriving DecidableEq, Repr

/-- The expression `typeof roomName === "string" ? roomName : roomName.name`. -/
def RoomArg.resolve : RoomArg → String
  | .str s => s
  | .obj n => n

/-- `Helpers.findRoomByName`: `cli.getRooms().find((r) => r.name === roomName)`
evaluated on the app client. -/
def findRoomByName (env : Env) (roomName : String) : Option MatrixRoom :=
  env.getRooms.find? (fun r => r.name == roomName)

/-- The per-message loop body of `sendMessageAsClient`, flattened over the
message list: `cli.sendMessage(roomId, { body, msgtype: "m.text" })` followed
by `this.page.waitForTimeout(100)`. -/
def sendTrace (cli : ClientId) (roomId : String) (messages : List String) : List Action :=
  messages.flatMap (fun m =>
    [Action.sendMessage cli roomId ⟨m, "m.text"⟩, Action.waitForTimeout 100])

/-- `Helpers.sendMessageAsClient`: resolve the room by name, read its
`roomId`, then for each message send it and wait 100 ms.  When the lookup
finds no room, the `roomId` evaluation throws, modelled as `none`. -/
def sendMessageAsClient (env : Env) (cli : ClientId) (roomName : RoomArg)
    (messages : List String) : Option (List Action) :=
  match findRoomByName env roomName.resolve with
  | none => none
  | some room => some (sendTrace cli room.roomId messages)

/-- `Helpers.receiveMessages`: sends the given messages as the bot client. -/
def receiveMessages (env : Env) (room : RoomArg) (messages : List String) :
    Option (List Action) :=
  sendMessageAsClient env ClientId.bot room messages

/-- `Helpers.goTo`: `app.viewRoomByName` on the resolved name. -/
def goTo (room : RoomArg) : List Action :=
  [Action.viewRoom room.resolve]

/-- `Helpers.pinMessage`: right-click the timeline message with the given
text, then click the `Pin` menu item. -/
def pinMessage (message : String) : List Action :=
  [Action.click ("right:mx_MTextBody:" ++ message), Action.click "menuitem:Pin"]

/-- `Helpers.pinMessages`: `pinMessage` for each message in order. -/
def pinMessages (messages : List String) : List Action :=
  messages.flatMap pinMessage

/-- `Helpers.assertPinnedCountInRoomInfo`: expects the `Pinned messages`
menu item to have text `Pinned messages${count}`. -/
def assertPinnedCountInRoomInfo (count : Nat) : List Action :=
  [Action.assertText "menuitem:Pinned messages" ("Pinned messages" ++ toString count)]

/-- `Helpers.assertPinnedMessagesList`: on the right panel, expects the
heading text `${messages.length} Pinned messages`, a matching screenshot
`pinned-messages-list-messages-${messages.length}.png`, exactly
`messages.length` list items, and each message visible in the list. -/
def assertPinnedMessagesList (messages : List String) : List Action :=
  [Action.assertText "rightpanel-heading:Pinned messages"
      (toString messages.length ++ " Pinned messages"),
   Action.matchScreenshot
      ("pinned-messages-list-messages-" ++ toString messages.length ++ ".png"),
   Action.assertCount "rightpanel-listitem" messages.length]
  ++ messages.map (fun m => Action.assertVisible "rightpanel-list" m)

/-- Whether an action is a `cli.sendMessage` call. -/
def Action.isSend : Action → Bool
  | .sendMessage _ _ _ => true
  | _ => false

/-- Whether an action is a page click. -/
def Action.isClick : Action → Bool
  | .click _ => true
  | _ => false

/-- Whether an action only reads the page (an assertion or a screenshot
comparison), as opposed to clicking, sending, navigating or waiting. -/
def Action.isReadOnly : Action → Bool
  | .assertText _ _ => true
  | .matchScreenshot _ => true
  | .assertCount _ _ => true
  | .assertVisible _ _ => true
  | _ => false

/-- Abstract page state that assertion actions are evaluated against:
text content per locator, item count per locator, visibility of a text
within a locator, and whether a named stored screenshot matches. -/
structure PageState where
  textOf : String → String
  countOf : String → Nat
  visibleIn : String → String → Bool
  screenshotMatches : String → Bool

/-- Whether a single action passes against the page state; non-assertion
actions trivially pass. -/
def passes (st : PageState) : Action → Bool
  | .assertText loc expected => st.textOf loc == expected
  | .matchScreenshot file => st.screenshotMatches file
  | .assertCount loc n => st.countOf loc == n
  | .assertVisible loc t => st.visibleIn loc t
  | _ => true

/-- A helper call succeeds iff every assertion in its trace passes. -/
def allPass (st : PageState) (tr : List Action) : Bool :=
  tr.all (passes st)

/-- Sequential execution of a trace under an effect oracle that may fail:
each action runs once, in order, and the first raised error propagates out
unchanged (the helpers contain no try/catch and no retry). -/
def runActions {E : Type} (oracle : Action → Except E Unit) :
    List Action → Except E Unit
  | [] => Except.ok ()
  | a :: rest =>
    match oracle a with
    | Except.error e => Except.error e
    | Except.ok _ => runActions oracle rest

end PinnedHelpers

namespace MemberListFactory

/-- A room object as consumed by `useMemberListViewModelFactory`: the data
`canInviteTo` may inspect is abstracted away; only `isSpaceRoom()` is
modelled concretely. -/
structure ClientRoom where
  isSpaceRoom : Bool

/-- The Matrix client from `useMatrixClientContext`, restricted to the
`getRoom` accessor the factory uses. -/
structure MatrixClientM where
  getRoom : String → Option ClientRoom

/-- The first two arguments the factory passes to `useMemberListViewModel`
(the third, the `MemberService`, carries no data relevant here). -/
structure MemberListVMArgs where
  canInviteToState : Bool
  isSpaceRoom : Bool
deriving DecidableEq, Repr

/-- `useEventEmitterState(emitter, event, fn)`: the state value is `fn()`,
re-evaluated on events; the emitter (`room || undefined`) only controls the
subscription, not the value. -/
def useEventEmitterState (_emitter : Option ClientRoom) (fn : Unit → Bool) : Bool :=
  fn ()

/-- `useMemberListViewModelFactory(roomId)`: looks the room up on the
client, computes `canInviteToState` as `!!room && canInviteTo(room)` and
passes `room?.isSpaceRoom() ?? false` on to the view model. -/
def useMemberListViewModelFactory (cli : MatrixClientM)
    (canInviteTo : ClientRoom → Bool) (roomId : String) : MemberListVMArgs :=
  let room := cli.getRoom roomId
  let canInviteToState := useEventEmitterState room (fun _ =>
    match room with
    | none => false
    | some r => canInviteTo r)
  { canInviteToState := canInviteToState
  , isSpaceRoom := (room.map ClientRoom.isSpaceRoom).getD false }

end MemberListFactory

namespace PinnedHelpers

theorem sendTrace_cons (cli : ClientId) (rid : String) (m : String) (ms : List String) :
    sendTrace cli rid (m :: ms) =
      Action.sendMessage cli rid ⟨m, "m.text"⟩ :: Action.waitForTimeout 100 ::
        sendTrace cli rid ms := rfl

theorem sendTrace_length (cli : ClientId) (rid : String) (ms : List String) :
    (sendTrace cli rid ms).length = 2 * ms.length := by
  induction ms with
  | nil => rfl
  | cons hd tl ih =>
    rw [sendTrace_cons]
    simp only [List.length_cons, ih]
    omega

theorem sendTrace_get (cli : ClientId) (rid : String) :
    ∀ (ms : List String) (i : Nat) (m : String), ms[i]? = some m →
      (sendTrace cli rid ms)[2 * i]? =
          some (Action.sendMessage cli rid ⟨m, "m.text"⟩) ∧
        (sendTrace cli rid ms)[2 * i + 1]? = some (Action.waitForTimeout 100) := by
  intro ms
  induction ms with
  | nil => intro i m h; simp at h
  | cons hd tl ih =>
    intro i m h
    cases i with
    | zero =>
      simp only [List.getElem?_cons_zero, Option.some_inj] at h
      subst h
      refine ⟨?_, ?_⟩ <;> simp [sendTrace_cons]
    | succ j =>
      have h2 : (2 : Nat) * (j + 1) = (2 * j + 1) + 1 := by omega
      rw [sendTrace_cons, h2]
      simp only [List.getElem?_cons_succ]
      exact ih j m (by simpa using h)

theorem sendTrace_mem (cli : ClientId) (rid : String) (ms : List String) :
    ∀ a ∈ sendTrace cli rid ms,
      (∃ m ∈ ms, a = Action.sendMessage cli rid ⟨m, "m.text"⟩) ∨
        a = Action.waitForTimeout 100 := by
  intro a ha
  simp only [sendTrace, List.mem_flatMap, List.mem_cons, List.not_mem_nil, or_false] at ha
  obtain ⟨m, hm, ha | ha⟩ := ha
  · exact Or.inl ⟨m, hm, ha⟩
  · exact Or.inr ha

theorem sendTrace_send_mem (cli : ClientId) (rid : String) (ms : List String) :
    ∀ m ∈ ms, Action.sendMessage cli rid ⟨m, "m.text"⟩ ∈ sendTrace cli rid ms := by
  intro m hm
  simp only [sendTrace, List.mem_flatMap]
  exact ⟨m, hm, by simp⟩

theorem sendTrace_filter_isSend (cli : ClientId) (rid : String) (ms : List String) :
    (sendTrace cli rid ms).filter Action.isSend =
      ms.map (fun m => Action.sendMessage cli rid ⟨m, "m.text"⟩) := by
  induction ms with
  | nil => rfl
  | cons hd tl ih =>
    rw [sendTrace_cons]
    simp [List.filter_cons, Action.isSend, ih]

theorem sendMessageAsClient_eq (env : Env) (cli : ClientId) (room : RoomArg)
    (messages : List String) (r : MatrixRoom)
    (hfind : findRoomByName env room.resolve = some r) :
    sendMessageAsClient env cli room messages = some (sendTrace cli r.roomId messages) := by
  simp [sendMessageAsClient, hfind]

theorem find?_first {α : Type} (p : α → Bool) :
    ∀ (l : List α) (a : α), l.find? p = some a →
      p a = true ∧ ∃ i, l[i]? = some a ∧
        ∀ (j : Nat) (b : α), j < i → l[j]? = some b → p b = false := by
  intro l
  induction l with
  | nil => intro a h; simp at h
  | cons hd tl ih =>
    intro a h
    by_cases hp : p hd = true
    · rw [List.find?_cons_of_pos _ hp] at h
      obtain rfl : hd = a := by injection h
      exact ⟨hp, 0, by simp, fun j b hj _ => absurd hj (Nat.not_lt_zero j)⟩
    · rw [List.find?_cons_of_neg _ hp] at h
      obtain ⟨hpa, i, hi, hfirst⟩ := ih a h
      refine ⟨hpa, i + 1, by simpa using hi, ?_⟩
      intro j b hj hb
      cases j with
      | zero =>
        obtain rfl : hd = b := by simpa using hb
        simp only [Bool.not_eq_true] at hp
        exact hp
      | succ k => exact hfirst k b (by omega) (by simpa using hb)

end PinnedHelpers

namespace PinnedHelpers

theorem runActions_first_error {E : Type} (oracle : Action → Except E Unit) :
    ∀ (pre : List Action) (a : Action) (rest : List Action) (e : E),
      (∀ b ∈ pre, oracle b = Except.ok ()) → oracle a = Except.error e →
      runActions oracle (pre ++ a :: rest) = Except.error e := by
  intro pre
  induction pre with
  | nil =>
    intro a rest e _ ha
    simp [runActions, ha]
  | cons hd tl ih =>
    intro a rest e hok ha
    have hhd := hok hd (List.mem_cons_self hd tl)
    rw [List.cons_append, runActions, hhd]
    exact ih a rest e (fun b hb => hok b (List.mem_cons_of_mem hd hb)) ha

/-- A concrete environment with a single room named `Room 1`. -/
def envEx : Env := ⟨[⟨"Room 1", "!r1:example.org"⟩]⟩

/-- An environment where `Room 1` is the second room. -/
def envEx2 : Env := ⟨[⟨"Other room", "!other:example.org"⟩, ⟨"Room 1", "!r1:example.org"⟩]⟩

/-- The room of `envEx` (and second room of `envEx2`). -/
def roomEx : MatrixRoom := ⟨"Room 1", "!r1:example.org"⟩

/-- C1: every successful `sendMessageAsClient` run produces a trace with a
send at each even index `2*i` carrying the `i`-th message and exactly one
`waitForTimeout 100` at index `2*i + 1` right after it, and nothing else:
consecutive sends are separated by exactly one fixed 100 ms wait, and no
other mitigation is performed. -/
theorem C1_fixed_delay_between_sends (env : Env) (cli : ClientId) (room : RoomArg)
    (messages : List String) (r : MatrixRoom) (tr : List Action)
    (hfind : findRoomByName env room.resolve = some r)
    (h : sendMessageAsClient env cli room messages = some tr) :
    tr.length = 2 * messages.length ∧
    (∀ i m, messages[i]? = some m →
      tr[2 * i]? = some (Action.sendMessage cli r.roomId ⟨m, "m.text"⟩) ∧
      tr[2 * i + 1]? = some (Action.waitForTimeout 100)) ∧
    (∀ a ∈ tr, a.isSend = true ∨ a = Action.waitForTimeout 100) := by
  have htr : tr = sendTrace cli r.roomId messages := by
    rw [sendMessageAsClient_eq env cli room messages r hfind] at h
    exact (Option.some_inj.mp h).symm
  subst htr
  refine ⟨sendTrace_length cli r.roomId messages,
    fun i m hm => sendTrace_get cli r.roomId messages i m hm, ?_⟩
  intro a ha
  rcases sendTrace_mem cli r.roomId messages a ha with ⟨m, _, rfl⟩ | rfl
  · exact Or.inl rfl
  · exact Or.inr rfl

/-- Witness for C1: the environment `envEx`, messages `["a", "b"]`. -/
theorem C1_fixed_delay_between_sends_witness :
    (sendTrace ClientId.bot roomEx.roomId ["a", "b"]).length =
        2 * (["a", "b"] : List String).length ∧
    (∀ i m, (["a", "b"] : List String)[i]? = some m →
      (sendTrace ClientId.bot roomEx.roomId ["a", "b"])[2 * i]? =
          some (Action.sendMessage ClientId.bot roomEx.roomId ⟨m, "m.text"⟩) ∧
      (sendTrace ClientId.bot roomEx.roomId ["a", "b"])[2 * i + 1]? =
          some (Action.waitForTimeout 100)) ∧
    (∀ a ∈ sendTrace ClientId.bot roomEx.roomId ["a", "b"],
      a.isSend = true ∨ a = Action.waitForTimeout 100) :=
  C1_fixed_delay_between_sends envEx ClientId.bot (RoomArg.str "Room 1") ["a", "b"]
    roomEx (sendTrace ClientId.bot roomEx.roomId ["a", "b"]) (by decide) (by decide)

/-- C2: a successful room lookup returns a room whose name is exactly the
requested name, and it is the first such room in `getRooms()`; for an
object argument the `.name` field is the string used. -/
theorem C2_room_lookup_first_exact_match (env : Env) (name : String) (r : MatrixRoom)
    (h : findRoomByName env name = some r) :
    r.name = name ∧
    (∃ i, env.getRooms[i]? = some r ∧
      ∀ (j : Nat) (r' : MatrixRoom), j < i → env.getRooms[j]? = some r' →
        r'.name ≠ name) ∧
    (∀ s : String, (RoomArg.obj s).resolve = s ∧ (RoomArg.str s).resolve = s) := by
  have h' : env.getRooms.find? (fun r : MatrixRoom => r.name == name) = some r := h
  obtain ⟨hpa, i, hi, hfirst⟩ :=
    find?_first (fun r : MatrixRoom => r.name == name) env.getRooms r h'
  refine ⟨by simpa using hpa, ⟨i, hi, ?_⟩, fun s => ⟨rfl, rfl⟩⟩
  intro j r' hj hjth
  have := hfirst j r' hj hjth
  simpa using this

/-- Witness for C2: `envEx2`, where `Room 1` is preceded by a room of a
different name. -/
theorem C2_room_lookup_first_exact_match_witness :
    roomEx.name = "Room 1" ∧
    (∃ i, envEx2.getRooms[i]? = some roomEx ∧
      ∀ (j : Nat) (r' : MatrixRoom), j < i → envEx2.getRooms[j]? = some r' →
        r'.name ≠ "Room 1") ∧
    (∀ s : String, (RoomArg.obj s).resolve = s ∧ (RoomArg.str s).resolve = s) :=
  C2_room_lookup_first_exact_match envEx2 "Room 1" roomEx (by decide)

/-- C3: every send in a successful `receiveMessages` trace is a bot-client
send of `{ body: m, msgtype: "m.text" }` into the resolved room id for some
listed message `m`, and every listed message gives rise to such a send. -/
theorem C3_sends_are_bot_text_messages (env : Env) (room : RoomArg)
    (messages : List String) (r : MatrixRoom) (tr : List Action)
    (hfind : findRoomByName env room.resolve = some r)
    (h : receiveMessages env room messages = some tr) :
    (∀ a ∈ tr, a.isSend = true →
      ∃ m ∈ messages, a = Action.sendMessage ClientId.bot r.roomId ⟨m, "m.text"⟩) ∧
    (∀ m ∈ messages, Action.sendMessage ClientId.bot r.roomId ⟨m, "m.text"⟩ ∈ tr) := by
  have htr : tr = sendTrace ClientId.bot r.roomId messages := by
    rw [receiveMessages, sendMessageAsClient_eq env ClientId.bot room messages r hfind] at h
    exact (Option.some_inj.mp h).symm
  subst htr
  refine ⟨?_, sendTrace_send_mem ClientId.bot r.roomId messages⟩
  intro a ha hsend
  rcases sendTrace_mem ClientId.bot r.roomId messages a ha with ⟨m, hm, rfl⟩ | rfl
  · exact ⟨m, hm, rfl⟩
  · simp [Action.isSend] at hsend

/-- Witness for C3: `envEx` and the single message `"a"`. -/
theorem C3_sends_are_bot_text_messages_witness :
    (∀ a ∈ sendTrace ClientId.bot roomEx.roomId ["a"], a.isSend = true →
      ∃ m ∈ (["a"] : List String),
        a = Action.sendMessage ClientId.bot roomEx.roomId ⟨m, "m.text"⟩) ∧
    (∀ m ∈ (["a"] : List String),
      Action.sendMessage ClientId.bot roomEx.roomId ⟨m, "m.text"⟩ ∈
        sendTrace ClientId.bot roomEx.roomId ["a"]) :=
  C3_sends_are_bot_text_messages envEx (RoomArg.str "Room 1") ["a"] roomEx
    (sendTrace ClientId.bot roomEx.roomId ["a"]) (by decide) (by decide)

/-- C4: the sends of a successful `receiveMessages` run occur strictly in
list order - the send subtrace equals the message list mapped to sends -
and each send is immediately followed by its wait before the next send
begins (positions `2*i` and `2*i + 1` of the sequential trace). -/
theorem C4_sends_sequential_in_list_order (env : Env) (room : RoomArg)
    (messages : List String) (r : MatrixRoom) (tr : List Action)
    (hfind : findRoomByName env room.resolve = some r)
    (h : receiveMessages env room messages = some tr) :
    tr.filter Action.isSend =
      messages.map (fun m => Action.sendMessage ClientId.bot r.roomId ⟨m, "m.text"⟩) ∧
    (∀ i m, messages[i]? = some m →
      tr[2 * i]? = some (Action.sendMessage ClientId.bot r.roomId ⟨m, "m.text"⟩) ∧
      tr[2 * i + 1]? = some (Action.waitForTimeout 100)) := by
  have htr : tr = sendTrace ClientId.bot r.roomId messages := by
    rw [receiveMessages, sendMessageAsClient_eq env ClientId.bot room messages r hfind] at h
    exact (Option.some_inj.mp h).symm
  subst htr
  exact ⟨sendTrace_filter_isSend ClientId.bot r.roomId messages,
    fun i m hm => sendTrace_get ClientId.bot r.roomId messages i m hm⟩

/-- Witness for C4: `envEx` and the messages `["a", "b"]`. -/
theorem C4_sends_sequential_in_list_order_witness :
    (sendTrace ClientId.bot roomEx.roomId ["a", "b"]).filter Action.isSend =
      (["a", "b"] : List String).map
        (fun m => Action.sendMessage ClientId.bot roomEx.roomId ⟨m, "m.text"⟩) ∧
    (∀ i m, (["a", "b"] : List String)[i]? = some m →
      (sendTrace ClientId.bot roomEx.roomId ["a", "b"])[2 * i]? =
          some (Action.sendMessage ClientId.bot roomEx.roomId ⟨m, "m.text"⟩) ∧
      (sendTrace ClientId.bot roomEx.roomId ["a", "b"])[2 * i + 1]? =
          some (Action.waitForTimeout 100)) :=
  C4_sends_sequential_in_list_order envEx (RoomArg.str "Room 1") ["a", "b"] roomEx
    (sendTrace ClientId.bot roomEx.roomId ["a", "b"]) (by decide) (by decide)

end PinnedHelpers

namespace PinnedHelpers

/-- An oracle that fails on clicks with error code 7 and succeeds otherwise. -/
def clickFailOracle : Action → Except Nat Unit := fun a =>
  if a.isClick then Except.error 7 else Except.ok ()

/-- C5: no helper retries or recovers: each listed message yields exactly
one `cli.sendMessage` call (the send subtrace is the message list mapped
once), `pinMessages` performs exactly two clicks per message (the
right-click and the `Pin` click, each attempted once) and nothing else, and
sequential execution propagates the first error raised by the underlying
framework unchanged. -/
theorem C5_no_retry_error_propagates :
    (∀ (env : Env) (cli : ClientId) (room : RoomArg) (messages : List String)
        (r : MatrixRoom) (tr : List Action),
      findRoomByName env room.resolve = some r →
      sendMessageAsClient env cli room messages = some tr →
      tr.filter Action.isSend =
        messages.map (fun m => Action.sendMessage cli r.roomId ⟨m, "m.text"⟩)) ∧
    (∀ messages : List String,
      (pinMessages messages).all Action.isClick = true ∧
      (pinMessages messages).length = 2 * messages.length) ∧
    (∀ (E : Type) (oracle : Action → Except E Unit) (pre : List Action)
        (a : Action) (rest : List Action) (e : E),
      (∀ b ∈ pre, oracle b = Except.ok ()) → oracle a = Except.error e →
      runActions oracle (pre ++ a :: rest) = Except.error e) := by
  refine ⟨?_, ?_, fun E oracle pre a rest e hok ha =>
    runActions_first_error oracle pre a rest e hok ha⟩
  · intro env cli room messages r tr hfind h
    have htr : tr = sendTrace cli r.roomId messages := by
      rw [sendMessageAsClient_eq env cli room messages r hfind] at h
      exact (Option.some_inj.mp h).symm
    subst htr
    exact sendTrace_filter_isSend cli r.roomId messages
  · intro messages
    constructor
    · induction messages with
      | nil => rfl
      | cons hd tl ih =>
        simp only [pinMessages, List.flatMap_cons] at ih ⊢
        simp [pinMessage, Action.isClick, ih]
    · induction messages with
      | nil => rfl
      | cons hd tl ih =>
        simp only [pinMessages, List.flatMap_cons, List.length_append] at ih ⊢
        simp only [ih, pinMessage, List.length_cons, List.length_nil, List.length_cons]
        omega

/-- Witness for C5: one message through `envEx`, one pinned message, and a
failing click under `clickFailOracle`. -/
theorem C5_no_retry_error_propagates_witness :
    (sendTrace ClientId.bot roomEx.roomId ["a"]).filter Action.isSend =
      (["a"] : List String).map
        (fun m => Action.sendMessage ClientId.bot roomEx.roomId ⟨m, "m.text"⟩) ∧
    ((pinMessages ["x"]).all Action.isClick = true ∧
      (pinMessages ["x"]).length = 2 * (["x"] : List String).length) ∧
    runActions clickFailOracle ([] ++ Action.click "t" :: []) = Except.error 7 :=
  ⟨C5_no_retry_error_propagates.1 envEx ClientId.bot (RoomArg.str "Room 1") ["a"]
      roomEx (sendTrace ClientId.bot roomEx.roomId ["a"]) (by decide) (by decide),
    C5_no_retry_error_propagates.2.1 ["x"],
    C5_no_retry_error_propagates.2.2 Nat clickFailOracle [] (Action.click "t") [] 7
      (by simp) rfl⟩

/-- C6: `assertPinnedCountInRoomInfo n` succeeds exactly when the
`Pinned messages` menu item's text equals `"Pinned messages" ++ toString n`
(for example `Pinned messages3` for `n = 3`), and its trace contains only
read-only assertions: no clicks and no page-state changes. -/
theorem C6_pinned_count_text_no_clicks (n : Nat) (st : PageState) :
    (allPass st (assertPinnedCountInRoomInfo n) = true ↔
      st.textOf "menuitem:Pinned messages" = "Pinned messages" ++ toString n) ∧
    (assertPinnedCountInRoomInfo n).all Action.isReadOnly = true ∧
    (assertPinnedCountInRoomInfo n).all (fun a => ! a.isClick) = true := by
  refine ⟨?_, rfl, rfl⟩
  simp [allPass, assertPinnedCountInRoomInfo, passes]

end PinnedHelpers

namespace PinnedHelpers

/-- A page state whose right panel satisfies the heading, count and
visibility conditions for an empty pinned list, but on which the stored
screenshot comparison fails. -/
def stEx : PageState :=
  { textOf := fun _ => "0 Pinned messages"
  , countOf := fun _ => 0
  , visibleIn := fun _ _ => true
  , screenshotMatches := fun _ => false }

/-- C7 counterexample: with `messages = []` on `stEx` the heading text,
item count and visibility conditions all hold, yet
`assertPinnedMessagesList` does not succeed, because its trace also
contains the screenshot comparison `toMatchScreenshot`, which fails here:
success is not equivalent to the three listed conditions. -/
theorem C7_screenshot_counterexample :
    stEx.textOf "rightpanel-heading:Pinned messages" =
        toString ([] : List String).length ++ " Pinned messages" ∧
    stEx.countOf "rightpanel-listitem" = ([] : List String).length ∧
    (∀ m ∈ ([] : List String), stEx.visibleIn "rightpanel-list" m = true) ∧
    allPass stEx (assertPinnedMessagesList []) = false := by
  refine ⟨rfl, rfl, by simp, ?_⟩
  rfl

/-- C7 amended: `assertPinnedMessagesList messages` succeeds iff the
heading text equals `${messages.length} Pinned messages`, the stored
screenshot `pinned-messages-list-messages-${messages.length}.png` matches
the right panel, the list holds exactly `messages.length` items, and every
message in the list is visible. -/
theorem C7_pinned_list_success_iff (st : PageState) (messages : List String) :
    allPass st (assertPinnedMessagesList messages) = true ↔
      (st.textOf "rightpanel-heading:Pinned messages" =
          toString messages.length ++ " Pinned messages" ∧
        st.screenshotMatches
          ("pinned-messages-list-messages-" ++ toString messages.length ++ ".png") = true ∧
        st.countOf "rightpanel-listitem" = messages.length ∧
        ∀ m ∈ messages, st.visibleIn "rightpanel-list" m = true) := by
  simp [allPass, assertPinnedMessagesList, passes, List.all_append, List.all_map,
    List.all_eq_true, Function.comp]

/-- C8: with an empty message list, `receiveMessages` still resolves the
room and succeeds, with an empty trace: no `sendMessage` call and no
`waitForTimeout`. -/
theorem C8_empty_list_no_sends (env : Env) (room : RoomArg) (r : MatrixRoom)
    (hfind : findRoomByName env room.resolve = some r) :
    receiveMessages env room [] = some [] := by
  simp [receiveMessages, sendMessageAsClient, hfind, sendTrace]

/-- Witness for C8: `envEx` and the room name `Room 1`. -/
theorem C8_empty_list_no_sends_witness :
    receiveMessages envEx (RoomArg.str "Room 1") [] = some [] :=
  C8_empty_list_no_sends envEx (RoomArg.str "Room 1") roomEx (by decide)

/-- C9: the string form and the object-with-name form of the room argument
are interchangeable: `receiveMessages` and `goTo` behave identically on
`RoomArg.str s` and `RoomArg.obj s`. -/
theorem C9_string_object_interchangeable (env : Env) (s : String)
    (messages : List String) :
    receiveMessages env (RoomArg.str s) messages =
        receiveMessages env (RoomArg.obj s) messages ∧
      goTo (RoomArg.str s) = goTo (RoomArg.obj s) :=
  ⟨rfl, rfl⟩

end PinnedHelpers

namespace MemberListFactory

/-- C10: when the client has no room for `roomId`, the factory still
returns a view model without touching a room object: `canInviteToState` is
computed as `false` (the `!!room` guard short-circuits, so `canInviteTo` is
never applied - the result holds for every `canInviteTo`) and `false` is
passed for `isSpaceRoom` via the `?? false` default. -/
theorem C10_missing_room_is_safe (cli : MatrixClientM)
    (canInviteTo : ClientRoom → Bool) (roomId : String)
    (h : cli.getRoom roomId = none) :
    useMemberListViewModelFactory cli canInviteTo roomId =
      { canInviteToState := false, isSpaceRoom := false } := by
  simp [useMemberListViewModelFactory, useEventEmitterState, h]

/-- A client that knows no rooms. -/
def cliNone : MatrixClientM := ⟨fun _ => none⟩

/-- Witness for C10: the room-less client with a `canInviteTo` that would
answer `true` were it ever consulted. -/
theorem C10_missing_room_is_safe_witness :
    useMemberListViewModelFactory cliNone (fun _ => true) "!room:example.org" =
      { canInviteToState := false, isSpaceRoom := false } :=
  C10_missing_room_is_safe cliNone (fun _ => true) "!room:example.org" rfl

end MemberListFactory
